import Mathlib

/-!
Verification development for the signalk-charts-provider-simple repository.

We shallowly embed the chart discovery / tile resolution engine
(`src/charts-loader.js`, `serveTileFromFilesystem`) and the download job
manager (`DownloadManager`) and prove the specified properties about the
embedded definitions. JavaScript values appearing in metadata are modelled by
an explicit `JSVal` type; machine numbers from `parseInt`/`parseFloat` are
modelled as `Option Int` / `Option ℚ` with `none` playing the role of `NaN`.
-/

namespace ChartsProvider

/-! ### String path helpers

`lastSeg` models Node's `path.basename` for inputs without trailing
separators (the shapes produced by the download manager): the substring after
the last `/`. -/

def lastSeg (cs : List Char) (cur : List Char) : List Char :=
  match cs with
  | [] => cur
  | c :: rest => if c = '/' then lastSeg rest [] else lastSeg rest (cur ++ [c])

/-- Models Node `path.basename` (no trailing-separator input). -/
def pathBasename (s : String) : String := ⟨lastSeg s.data []⟩

/-- Models Node `path.join(dir, rel)` for a relative `rel`: concatenation with
a single separator (no `.`/`..` normalisation, which the embedded call sites
do not rely on). -/
def joinPath (dir rel : String) : String := dir ++ "/" ++ rel

theorem lastSeg_no_sep (cs cur : List Char) (h : '/' ∉ cur) :
    '/' ∉ lastSeg cs cur := by
  induction cs generalizing cur with
  | nil => simpa [lastSeg] using h
  | cons c rest ih =>
    simp only [lastSeg]
    by_cases hc : c = '/'
    · simpa [hc] using ih [] (by simp)
    · refine (if_neg hc) ▸ ih (cur ++ [c]) ?_
      simp [hc, List.mem_append, h]
      intro hmem
      exact hc hmem.symm

theorem lastSeg_of_no_sep (cs cur : List Char) (h : '/' ∉ cs) :
    lastSeg cs cur = cur ++ cs := by
  induction cs generalizing cur with
  | nil => simp [lastSeg]
  | cons c rest ih =>
    simp only [lastSeg]
    have hc : c ≠ '/' := by
      intro hc; exact h (hc ▸ List.mem_cons_self c rest)
    rw [if_neg (fun hcc => hc hcc)]
    rw [ih (cur ++ [c]) (fun hm => h (List.mem_cons_of_mem c hm))]
    simp

theorem pathBasename_idem (s : String) :
    pathBasename (pathBasename s) = pathBasename s := by
  show (⟨lastSeg (lastSeg s.data []) []⟩ : String) = ⟨lastSeg s.data []⟩
  rw [lastSeg_of_no_sep _ _ (lastSeg_no_sep s.data [] (by simp))]
  simp

theorem lastSeg_append_sep (xs ys : List Char) (cur : List Char) :
    lastSeg (xs ++ '/' :: ys) cur = lastSeg ys [] := by
  induction xs generalizing cur with
  | nil => simp [lastSeg]
  | cons c rest ih =>
    simp only [List.cons_append, lastSeg]
    by_cases hc : c = '/'
    · rw [if_pos hc]; exact ih []
    · rw [if_neg hc]; exact ih (cur ++ [c])

theorem pathBasename_joinPath (dir rel : String) :
    pathBasename (joinPath dir rel) = pathBasename rel := by
  show (⟨lastSeg (dir ++ "/" ++ rel).data []⟩ : String) = ⟨lastSeg rel.data []⟩
  have : (dir ++ "/" ++ rel).data = dir.data ++ '/' :: rel.data := by
    simp [String.data_append]
  rw [this, lastSeg_append_sep]

/-! ### Tile resolution from the filesystem (`serveTileFromFilesystem`)

The filesystem is modelled as a partial map from paths to byte lists; an
absent path is the `ENOENT` case of `res.sendFile`, answered with 404. -/

/-- Outcome of a tile request, as observed by the HTTP client. -/
inductive TileResponse where
  | ok (bytes : List Nat)
  | notFound
  deriving DecidableEq, Repr

/-- The file path computed by `serveTileFromFilesystem`:
`path.resolve(_filePath, `${z}/${x}/${_flipY ? flippedY : y}.${format}`)`,
with `flippedY = Math.pow(2, z) - 1 - y`; the empty string when `_filePath`
is falsy. -/
def tileFilePath (filePath format : String) (flipY : Bool) (z x y : Nat) : String :=
  let flippedY : Int := 2 ^ z - 1 - (y : Int)
  if filePath = "" then ""
  else
    joinPath filePath
      (toString z ++ "/" ++ toString x ++ "/"
        ++ toString (if flipY then flippedY else (y : Int)) ++ "." ++ format)

/-- `serveTileFromFilesystem` over a filesystem snapshot `fsFiles`. -/
def serveTileFromFilesystem (fsFiles : String → Option (List Nat))
    (filePath format : String) (flipY : Bool) (z x y : Nat) : TileResponse :=
  match fsFiles (tileFilePath filePath format flipY z x y) with
  | some bytes => .ok bytes
  | none => .notFound

/-- C2: for a directory-backed descriptor (non-empty source path), the tile
resolver reads exactly `<sourcePath>/<z>/<x>/<row>.<tileFormat>` where `row`
is `y` without vertical flip and `2^z - 1 - y` with it; a present file is
returned and an absent file yields the not-found (404) signal rather than an
error. -/
theorem directory_tile_resolution
    (fsFiles : String → Option (List Nat)) (sourcePath tileFormat : String)
    (flipY : Bool) (z x y : Nat) (h : sourcePath ≠ "") :
    tileFilePath sourcePath tileFormat flipY z x y
        = sourcePath ++ "/" ++ toString z ++ "/" ++ toString x ++ "/"
            ++ toString (if flipY then 2 ^ z - 1 - (y : Int) else (y : Int))
            ++ "." ++ tileFormat
    ∧ (∀ bytes,
        fsFiles (sourcePath ++ "/" ++ toString z ++ "/" ++ toString x ++ "/"
            ++ toString (if flipY then 2 ^ z - 1 - (y : Int) else (y : Int))
            ++ "." ++ tileFormat) = some bytes →
        serveTileFromFilesystem fsFiles sourcePath tileFormat flipY z x y
          = .ok bytes)
    ∧ (fsFiles (sourcePath ++ "/" ++ toString z ++ "/" ++ toString x ++ "/"
            ++ toString (if flipY then 2 ^ z - 1 - (y : Int) else (y : Int))
            ++ "." ++ tileFormat) = none →
        serveTileFromFilesystem fsFiles sourcePath tileFormat flipY z x y
          = .notFound) := by
  have hpath : tileFilePath sourcePath tileFormat flipY z x y
      = sourcePath ++ "/" ++ toString z ++ "/" ++ toString x ++ "/"
          ++ toString (if flipY then 2 ^ z - 1 - (y : Int) else (y : Int))
          ++ "." ++ tileFormat := by
    simp only [tileFilePath, joinPath, if_neg h]
    simp [String.append_assoc]
  refine ⟨hpath, ?_, ?_⟩
  · intro bytes hb
    simp [serveTileFromFilesystem, hpath, hb]
  · intro hb
    simp [serveTileFromFilesystem, hpath, hb]

/-- Witness for `directory_tile_resolution` at a concrete descriptor and an
empty filesystem: the request yields 404. -/
theorem directory_tile_resolution_witness :
    serveTileFromFilesystem (fun _ => none) "/charts/c1" "png" true 3 2 1
      = .notFound :=
  (directory_tile_resolution (fun _ => none) "/charts/c1" "png" true 3 2 1
    (by decide)).2.2 rfl

/-! ### JavaScript metadata values

Chart metadata read from JSON / XML / the container metadata table is
modelled by `JSVal`. JavaScript numbers as produced by `parseInt` /
`parseFloat` are modelled as `Option Int` / `Option ℚ` where `none` plays the
role of `NaN` (the embedded code paths never produce `±Infinity`:
`parseInt`/`parseFloat` of finite-length digit strings cannot). -/

inductive JSVal where
  | str (s : String)
  | num (q : Option ℚ)
  | arr (elems : List JSVal)
  | bool (b : Bool)
  | null
  | undef
  | obj
  deriving Repr

/-- JavaScript truthiness test (`!value` in the source negates this). -/
def jsFalsy (v : JSVal) : Bool :=
  match v with
  | .str s => s = ""
  | .num none => true
  | .num (some q) => q = 0
  | .bool b => !b
  | .null => true
  | .undef => true
  | .arr _ => false
  | .obj => false

/-- Is the value JS `undefined`? -/
def JSVal.isUndef : JSVal → Bool
  | .undef => true
  | _ => false

/-- JavaScript `a || b`. -/
def jsOr (a b : JSVal) : JSVal := if jsFalsy a then b else a

/-- Split a character list at every occurrence of `sep` (the result always
has one more group than there are separators, like JS `String.split`). -/
def splitOnChar (sep : Char) : List Char → List (List Char)
  | [] => [[]]
  | c :: rest =>
    match splitOnChar sep rest with
    | [] => [[]]
    | g :: gs => if c = sep then [] :: g :: gs else (c :: g) :: gs

/-- JS `s.split(sep)` for a single-character separator. -/
def jsSplit (sep : Char) (s : String) : List String :=
  (splitOnChar sep s.data).map (fun cs => ⟨cs⟩)

/-- JS `s.trim()` / lodash `_.trim`: strip whitespace from both ends. -/
def jsTrim (s : String) : String :=
  ⟨((s.data.dropWhile Char.isWhitespace).reverse.dropWhile
      Char.isWhitespace).reverse⟩

/-- JS `s.endsWith(suffix)`. -/
def jsEndsWith (s suffix : String) : Bool :=
  suffix.data.isSuffixOf s.data

/-- Value of the decimal digit list `ds`. -/
def digitsVal (ds : List Char) : Nat :=
  ds.foldl (fun acc c => acc * 10 + (c.toNat - '0'.toNat)) 0

/-- Models JS `parseFloat` for plain decimal notation (optional sign, digits,
optional fractional part, trailing garbage ignored); `none` is `NaN`.
Exponent notation and `Infinity` literals are not modelled (the chart
metadata call sites only feed plain decimals). -/
def parseFloatQ (s : String) : Option ℚ :=
  let cs := s.data.dropWhile Char.isWhitespace
  let signAndRest : ℚ × List Char :=
    match cs with
    | '-' :: rest => (-1, rest)
    | '+' :: rest => (1, rest)
    | _ => (1, cs)
  let sign := signAndRest.1
  let ds := signAndRest.2.takeWhile Char.isDigit
  let rest := signAndRest.2.dropWhile Char.isDigit
  match ds, rest with
  | [], '.' :: rest2 =>
    let fs := rest2.takeWhile Char.isDigit
    if fs = [] then none
    else some (sign * ((digitsVal fs : ℚ) / (10 : ℚ) ^ fs.length))
  | [], _ => none
  | _, '.' :: rest2 =>
    let fs := rest2.takeWhile Char.isDigit
    some (sign * ((digitsVal ds : ℚ) + (digitsVal fs : ℚ) / (10 : ℚ) ^ fs.length))
  | _, _ => some (sign * (digitsVal ds : ℚ))

/-- Models JS `parseInt` applied to a metadata value: for strings, skip
leading whitespace, optional sign, then leading decimal digits (`none` = NaN
when there are none); for numbers, truncation toward zero (as
`parseInt(String(n))` for plain decimal rendering); `NaN` for all other
values. -/
def jsParseInt (v : JSVal) : Option Int :=
  match v with
  | .str s =>
    let cs := s.data.dropWhile Char.isWhitespace
    let signAndRest : Int × List Char :=
      match cs with
      | '-' :: rest => (-1, rest)
      | '+' :: rest => (1, rest)
      | _ => (1, cs)
    let ds := signAndRest.2.takeWhile Char.isDigit
    if ds = [] then none else some (signAndRest.1 * (digitsVal ds : Int))
  | .num (some q) => some (Int.tdiv q.num (q.den : Int))
  | _ => none

/-- `parseIntIfNotUndefined` (charts-loader.js): `parseInt` then keep the
result only if finite. Outer `none` is JS `undefined`, inner `none` would be
`NaN`. -/
def parseIntIfNotUndefined (val : JSVal) : Option (Option Int) :=
  match jsParseInt val with
  | some n => some (some n)
  | none => none

/-- `parseInt(scale) || 250000`: `NaN` and `0` are falsy and fall back to the
250000 default. `none` would be `NaN`. -/
def scaleJS (val : JSVal) : Option Int :=
  match jsParseInt val with
  | some n => if n = 0 then some 250000 else some n
  | none => some 250000

/-- lodash `_.min` over JS numbers: `NaN` entries are skipped, empty input
(or all-`NaN`) gives `undefined` (outer `none`). -/
def lodashMin (l : List (Option Int)) : Option Int := (l.filterMap id).min?

/-- lodash `_.max` over JS numbers, skipping `NaN`. -/
def lodashMax (l : List (Option Int)) : Option Int := (l.filterMap id).max?

/-- Object property lookup, `undefined` when absent. -/
def lookupJS (m : List (String × JSVal)) (k : String) : JSVal :=
  (((m.find? (fun p => p.1 = k)).map Prod.snd).getD .undef)

/-- `parseBounds` inside `parseMetadataJson` (charts-loader.js lines
323-331): any string is split on commas and each piece trimmed and
`parseFloat`ed; a 4-element array is returned unchanged; anything else is
`undefined`. -/
def parseBounds (bounds : JSVal) : Option JSVal :=
  match bounds with
  | .str s =>
    some (.arr ((jsSplit ',' s).map (fun b => JSVal.num (parseFloatQ (jsTrim b)))))
  | .arr l => if l.length = 4 then some (.arr l) else none
  | _ => none

/-! ### The three format parsers and the registry (`charts-loader.js`) -/

/-- Chart descriptor fields shared by the two directory formats, as built by
`parseTilemapResource` / `parseMetadataJson` and enriched by
`directoryToMapInfo`. Numeric fields: outer `none` is JS `undefined`, inner
`none` is `NaN`. -/
structure DirInfo where
  flipY : Bool
  name : JSVal
  description : JSVal
  bounds : Option JSVal
  minzoom : Option (Option Int)
  maxzoom : Option (Option Int)
  format : JSVal
  type : JSVal
  scale : Option Int
  identifier : String
  filePath : String

/-- The fields of `parsed.TileMap` that `parseTilemapResource` reads after
xml2js parsing (the XML parse itself is an external library and is modelled
by this record of its output). `bbox` holds the BoundingBox attribute strings
(minx, miny, maxx, maxy); `tileSetHrefs` the per-TileSet `href` attribute
values. -/
structure TileMapXml where
  title : Option String
  tileFormatExt : JSVal
  scaleAttr : JSVal
  bbox : Option (String × String × String × String)
  tileSetHrefs : List JSVal

/-- `parseTilemapResource` (charts-loader.js lines 260-301). -/
def parseTilemapResource (t : TileMapXml) : DirInfo :=
  let zoomLevels := t.tileSetHrefs.map jsParseInt
  { flipY := true
    name := (t.title.map JSVal.str).getD .undef
    description := (t.title.map JSVal.str).getD .undef
    bounds :=
      match t.bbox with
      | some (minx, miny, maxx, maxy) =>
        some (.arr [.num (parseFloatQ minx), .num (parseFloatQ miny),
                    .num (parseFloatQ maxx), .num (parseFloatQ maxy)])
      | none => none
    minzoom := if zoomLevels.isEmpty then none else (lodashMin zoomLevels).map some
    maxzoom := if zoomLevels.isEmpty then none else (lodashMax zoomLevels).map some
    format := t.tileFormatExt
    type := .str "tilelayer"
    scale := scaleJS t.scaleAttr
    identifier := ""
    filePath := "" }

/-- `parseMetadataJson` (charts-loader.js lines 312-348) applied to the
parsed JSON object, an association list of properties. -/
def parseMetadataJson (m : List (String × JSVal)) : DirInfo :=
  { flipY := false
    name := jsOr (lookupJS m "name") (lookupJS m "id")
    description := jsOr (lookupJS m "description") (.str "")
    bounds := parseBounds (lookupJS m "bounds")
    minzoom := parseIntIfNotUndefined (lookupJS m "minzoom")
    maxzoom := parseIntIfNotUndefined (lookupJS m "maxzoom")
    format := lookupJS m "format"
    type := jsOr (lookupJS m "type") (.str "tilelayer")
    scale := scaleJS (lookupJS m "scale")
    identifier := ""
    filePath := "" }

/-- The validation/enrichment step of `directoryToMapInfo` (charts-loader.js
lines 215-248) applied to a parser result: reject when `format` is falsy
(`!info.format`), otherwise set identifier and file path and keep the chart.
`bounds` is not inspected. -/
def directoryToMapInfo (info : DirInfo) (identifier filePath : String) :
    Option DirInfo :=
  if jsFalsy info.format then none
  else some { info with identifier := identifier, filePath := filePath }

/-- Chart descriptor built by `openMbtilesFile`. `minzoom`/`maxzoom`/`format`
are copied verbatim from the container metadata. -/
structure MbtilesChart where
  identifier : String
  name : JSVal
  description : JSVal
  bounds : JSVal
  minzoom : JSVal
  maxzoom : JSVal
  format : JSVal
  scale : Option Int

/-- `filename.replace(/\.mbtiles$/i, '')`: strip a case-insensitive
`.mbtiles` suffix (8 characters). -/
def stripMbtilesExt (s : String) : String :=
  if jsEndsWith ⟨s.data.map Char.toLower⟩ ".mbtiles" then
    ⟨s.data.take (s.data.length - 8)⟩
  else s

/-- `openMbtilesFile` (charts-loader.js lines 106-171): the SQLite open and
`getInfo` of the external @mapbox/mbtiles library are modelled by the
resulting metadata association list; the function rejects the source when the
metadata object is empty or has no `bounds` key, and otherwise builds the
descriptor. -/
def openMbtilesFile (metadata : List (String × JSVal)) (filename : String) :
    Option MbtilesChart :=
  if metadata.isEmpty || (lookupJS metadata "bounds").isUndef then none
  else
    some
      { identifier := stripMbtilesExt filename
        name := jsOr (lookupJS metadata "name") (lookupJS metadata "id")
        description := lookupJS metadata "description"
        bounds := lookupJS metadata "bounds"
        minzoom := lookupJS metadata "minzoom"
        maxzoom := lookupJS metadata "maxzoom"
        format := lookupJS metadata "format"
        scale := scaleJS (lookupJS metadata "scale") }

/-- A discovered chart source, after the recursive walk has classified it:
either an `.mbtiles` file (with the metadata its container yields) or a
directory whose tilemapresource.xml / metadata.json has been parsed to a
`DirInfo`. -/
inductive Source where
  | mbtilesFile (metadata : List (String × JSVal)) (filename : String)
  | chartDir (info : DirInfo) (identifier : String) (filePath : String)

/-- A registry entry. -/
inductive Chart where
  | mb (c : MbtilesChart)
  | dir (d : DirInfo)

def Chart.identifier : Chart → String
  | .mb c => c.identifier
  | .dir d => d.identifier

/-- The bounds field of a registry entry, `none` = JS `undefined`. -/
def Chart.bounds : Chart → Option JSVal
  | .mb c => if c.bounds.isUndef then none else some c.bounds
  | .dir d => d.bounds

/-- Per-source parsing step of the walk. -/
def sourceChart : Source → Option Chart
  | .mbtilesFile md fn => (openMbtilesFile md fn).map .mb
  | .chartDir info id p => (directoryToMapInfo info id p).map .dir

/-- `result[chart.identifier] = chart` over an association list. -/
def upsertChart (acc : List (String × Chart)) (c : Chart) :
    List (String × Chart) :=
  if acc.any (fun p => p.1 = c.identifier) then
    acc.map (fun p => if p.1 = c.identifier then (c.identifier, c) else p)
  else acc ++ [(c.identifier, c)]

/-- `findCharts` (charts-loader.js lines 24-42): parse every discovered
source, drop the invalid ones (`null`), and key the remainder by
identifier. -/
def findCharts (sources : List Source) : List (String × Chart) :=
  (sources.filterMap sourceChart).foldl upsertChart []

/-! ### C1: missing-bounds handling -/

/-- C1 counterexample: a directory source whose metadata.json has a `format`
but no `bounds` is present in the registry output (with undefined bounds),
contradicting the claim that a source lacking bounds is never present for all
three formats. -/
theorem registry_missing_bounds_counterexample :
    (findCharts [Source.chartDir (parseMetadataJson [("format", JSVal.str "png")])
        "mychart" "/charts/mychart"]).map (fun p => (p.1, p.2.bounds))
      = [("mychart", (none : Option JSVal))] := rfl

/-- C1 amended: only the MBTiles parser drops a source whose metadata lacks
`bounds`; a directory source (TMS or metadata.json) is dropped exactly when
its `format` is falsy, and is kept — bounds present or not — otherwise. -/
theorem missing_bounds_handling
    (metadata : List (String × JSVal)) (filename : String) (info : DirInfo)
    (identifier filePath : String) :
    ((lookupJS metadata "bounds").isUndef = true →
        openMbtilesFile metadata filename = none)
    ∧ (jsFalsy info.format = false →
        directoryToMapInfo info identifier filePath
          = some { info with identifier := identifier, filePath := filePath })
    ∧ (jsFalsy info.format = true →
        directoryToMapInfo info identifier filePath = none) := by
  refine ⟨?_, ?_, ?_⟩
  · intro h
    simp [openMbtilesFile, h]
  · intro h
    simp [directoryToMapInfo, h]
  · intro h
    simp [directoryToMapInfo, h]

/-- Witness for `missing_bounds_handling` at concrete sources. -/
theorem missing_bounds_handling_witness :
    openMbtilesFile [("format", JSVal.str "png")] "a.mbtiles" = none
    ∧ directoryToMapInfo (parseMetadataJson [("format", JSVal.str "png")])
        "c" "/charts/c"
      = some { parseMetadataJson [("format", JSVal.str "png")] with
               identifier := "c", filePath := "/charts/c" } :=
  ⟨(missing_bounds_handling [("format", JSVal.str "png")] "a.mbtiles"
      (parseMetadataJson [("format", JSVal.str "png")]) "c" "/charts/c").1 rfl,
   (missing_bounds_handling [("format", JSVal.str "png")] "a.mbtiles"
      (parseMetadataJson [("format", JSVal.str "png")]) "c" "/charts/c").2.1 rfl⟩

/-! ### C8: `parseBounds` shapes -/

theorem parseFloatQ_one : parseFloatQ "1.0" = some 1 := by
  have d1 : digitsVal ['1'] = 1 := by decide
  have d0 : digitsVal ['0'] = 0 := by decide
  show some ((1 : ℚ) * ((digitsVal ['1'] : ℚ)
      + (digitsVal ['0'] : ℚ) / (10 : ℚ) ^ (1 : ℕ))) = some 1
  rw [d1, d0]
  norm_num

theorem parseFloatQ_two : parseFloatQ "2.0" = some 2 := by
  have d2 : digitsVal ['2'] = 2 := by decide
  have d0 : digitsVal ['0'] = 0 := by decide
  show some ((1 : ℚ) * ((digitsVal ['2'] : ℚ)
      + (digitsVal ['0'] : ℚ) / (10 : ℚ) ^ (1 : ℕ))) = some 2
  rw [d2, d0]
  norm_num

theorem parseFloatQ_three : parseFloatQ "3.0" = some 3 := by
  have d3 : digitsVal ['3'] = 3 := by decide
  have d0 : digitsVal ['0'] = 0 := by decide
  show some ((1 : ℚ) * ((digitsVal ['3'] : ℚ)
      + (digitsVal ['0'] : ℚ) / (10 : ℚ) ^ (1 : ℕ))) = some 3
  rw [d3, d0]
  norm_num

theorem parseFloatQ_four : parseFloatQ "4.0" = some 4 := by
  have d4 : digitsVal ['4'] = 4 := by decide
  have d0 : digitsVal ['0'] = 0 := by decide
  show some ((1 : ℚ) * ((digitsVal ['4'] : ℚ)
      + (digitsVal ['0'] : ℚ) / (10 : ℚ) ^ (1 : ℕ))) = some 4
  rw [d4, d0]
  norm_num

/-- C8 counterexample: the string `"1,2"` does not contain four numbers, yet
`parseBounds` does not treat it as absent bounds — it returns a 2-element
array. -/
theorem parseBounds_short_string_counterexample :
    parseBounds (JSVal.str "1,2")
        = some (.arr [.num (parseFloatQ "1"), .num (parseFloatQ "2")])
    ∧ parseBounds (JSVal.str "1,2") ≠ none := by
  refine ⟨rfl, ?_⟩
  simp [parseBounds]

/-- C8 amended: every string — whatever it contains — is split on commas and
parsed elementwise (trimmed, `parseFloat`ed), producing one entry per piece;
a 4-element array of any content is kept unchanged; arrays of other lengths
and non-string non-array shapes are treated as absent bounds. The spec's
example `"1.0, 2.0, 3.0, 4.0"` parses to `[1.0, 2.0, 3.0, 4.0]`. -/
theorem parseBounds_shapes (s : String) (l : List JSVal) (v : JSVal) :
    parseBounds (.str s)
        = some (.arr ((jsSplit ',' s).map
            (fun b => JSVal.num (parseFloatQ (jsTrim b)))))
    ∧ (l.length = 4 → parseBounds (.arr l) = some (.arr l))
    ∧ (l.length ≠ 4 → parseBounds (.arr l) = none)
    ∧ ((∀ s', v ≠ .str s') → (∀ l', v ≠ .arr l') → parseBounds v = none)
    ∧ parseBounds (.str "1.0, 2.0, 3.0, 4.0")
        = some (.arr [.num (some 1), .num (some 2), .num (some 3),
                      .num (some 4)]) := by
  refine ⟨rfl, ?_, ?_, ?_, ?_⟩
  · intro h
    simp [parseBounds, h]
  · intro h
    simp [parseBounds, h]
  · intro hs ha
    cases v with
    | str s' => exact absurd rfl (hs s')
    | arr l' => exact absurd rfl (ha l')
    | num q => rfl
    | bool b => rfl
    | null => rfl
    | undef => rfl
    | obj => rfl
  · have h : parseBounds (.str "1.0, 2.0, 3.0, 4.0")
        = some (.arr [.num (parseFloatQ "1.0"), .num (parseFloatQ "2.0"),
                      .num (parseFloatQ "3.0"), .num (parseFloatQ "4.0")]) := rfl
    rw [h, parseFloatQ_one, parseFloatQ_two, parseFloatQ_three, parseFloatQ_four]

/-- Witness for `parseBounds_shapes` at concrete inputs. -/
theorem parseBounds_shapes_witness :
    parseBounds (.arr [.num (some 1), .num (some 2), .num (some 3),
        .num (some 4)])
      = some (.arr [.num (some 1), .num (some 2), .num (some 3),
        .num (some 4)])
    ∧ parseBounds (.arr [.num (some 1)]) = none
    ∧ parseBounds .null = none :=
  ⟨(parseBounds_shapes "" [.num (some 1), .num (some 2), .num (some 3),
      .num (some 4)] .null).2.1 rfl,
   (parseBounds_shapes "" [.num (some 1)] .null).2.2.1 (by decide),
   (parseBounds_shapes "" [] .null).2.2.2.1
     (fun s' h => JSVal.noConfusion h) (fun l' h => JSVal.noConfusion h)⟩

/-! ### C9: numeric-field sanitation -/

/-- C9 counterexample: the `scale` field does not follow the lenient-integer
rule — on unparsable input it defaults to 250000 instead of ending up
undefined as the rule (`parseIntIfNotUndefined`) would produce. -/
theorem scale_not_lenient_counterexample :
    (parseMetadataJson [("scale", JSVal.str "abc")]).scale = some 250000
    ∧ parseIntIfNotUndefined (JSVal.str "abc") = none := ⟨rfl, rfl⟩

/-- C9 amended: `minzoom`/`maxzoom` computed by the directory-metadata parser
follow the lenient-integer rule (a finite integer or undefined, never NaN);
the TMS parser's zoom fields are min/max over the parsed levels with NaN
skipped, never NaN; `scale` in both directory parsers is the parsed integer
when finite and nonzero and 250000 otherwise, never NaN; the MBTiles parser
copies `minzoom`/`maxzoom` verbatim from container metadata rather than
parsing them. -/
theorem numeric_fields_no_nan (v : JSVal) (t : TileMapXml)
    (m : List (String × JSVal)) (filename : String) :
    parseIntIfNotUndefined v ≠ some none
    ∧ scaleJS v ≠ none
    ∧ (scaleJS v = some 250000
        ∨ ∃ n : Int, n ≠ 0 ∧ jsParseInt v = some n ∧ scaleJS v = some n)
    ∧ (parseTilemapResource t).minzoom ≠ some none
    ∧ (parseTilemapResource t).maxzoom ≠ some none
    ∧ (parseTilemapResource t).scale ≠ none
    ∧ (parseMetadataJson m).minzoom ≠ some none
    ∧ (parseMetadataJson m).maxzoom ≠ some none
    ∧ (parseMetadataJson m).scale ≠ none
    ∧ (parseMetadataJson m).minzoom
        = parseIntIfNotUndefined (lookupJS m "minzoom")
    ∧ (∀ c, openMbtilesFile m filename = some c →
        c.minzoom = lookupJS m "minzoom" ∧ c.maxzoom = lookupJS m "maxzoom") := by
  have hlen : ∀ w : JSVal, parseIntIfNotUndefined w ≠ some none := by
    intro w
    unfold parseIntIfNotUndefined
    cases jsParseInt w <;> simp
  have hscale : ∀ w : JSVal, scaleJS w ≠ none := by
    intro w
    unfold scaleJS
    cases h : jsParseInt w
    · simp
    · dsimp only
      split <;> simp
  refine ⟨hlen v, hscale v, ?_, ?_, ?_, hscale t.scaleAttr, hlen _, hlen _,
      hscale _, rfl, ?_⟩
  · unfold scaleJS
    cases h : jsParseInt v
    · left; rfl
    · rename_i n
      dsimp only
      by_cases hn : n = 0
      · left; simp [hn]
      · right; exact ⟨n, hn, rfl, by simp [hn]⟩
  · show (if (t.tileSetHrefs.map jsParseInt).isEmpty then none
        else (lodashMin (t.tileSetHrefs.map jsParseInt)).map some) ≠ some none
    split
    · simp
    · cases lodashMin (t.tileSetHrefs.map jsParseInt) <;> simp
  · show (if (t.tileSetHrefs.map jsParseInt).isEmpty then none
        else (lodashMax (t.tileSetHrefs.map jsParseInt)).map some) ≠ some none
    split
    · simp
    · cases lodashMax (t.tileSetHrefs.map jsParseInt) <;> simp
  · intro c hc
    unfold openMbtilesFile at hc
    split at hc
    · exact Option.noConfusion hc
    · cases hc
      exact ⟨rfl, rfl⟩

/-- Witness for `numeric_fields_no_nan` at concrete inputs. -/
theorem numeric_fields_no_nan_witness :
    parseIntIfNotUndefined (JSVal.str "abc") ≠ some none :=
  (numeric_fields_no_nan (JSVal.str "abc")
    ⟨none, .undef, .undef, none, []⟩ [] "f.mbtiles").1

/-! ### Download manager: response dispatch (C4) -/

/-- Outcome of the response-header dispatch in `downloadAndExtract`; a
failure carries the error message given to `reject`, which `processJob`
records as the job's error. -/
inductive FetchStep where
  | redirect (newUrl : String)
  | failWith (error : String)
  | proceed
  deriving DecidableEq, Repr

/-- The response dispatch of `downloadAndExtract` (part_000 lines 102-117):
only status 301 and 302 check for a `Location` header, rewriting the job URL
and retrying the whole fetch when one is present; any other outcome with a
status other than 200 rejects with `HTTP <code>`. -/
def handleResponse (statusCode : Nat) (location : Option String) : FetchStep :=
  if statusCode = 301 ∨ statusCode = 302 then
    match location with
    | some url => .redirect url
    | none => if statusCode ≠ 200 then .failWith ("HTTP " ++ toString statusCode)
              else .proceed
  else if statusCode ≠ 200 then .failWith ("HTTP " ++ toString statusCode)
  else .proceed

/-- C4 counterexample: a 307 redirect response carrying a `Location` header
is not retried but failed (only 301/302 are followed), and a 206 response —
a 2xx, not a redirect — is also failed. -/
theorem redirect_handling_counterexample :
    handleResponse 307 (some "https://example.org/x") = .failWith "HTTP 307"
    ∧ handleResponse 307 (some "https://example.org/x")
        ≠ .redirect "https://example.org/x"
    ∧ handleResponse 206 none = .failWith "HTTP 206" := by
  refine ⟨rfl, ?_, rfl⟩
  intro h
  exact FetchStep.noConfusion h

/-- C4 amended: a 301 or 302 response with a `Location` header rewrites the
job URL and retries the whole fetch; 301/302 without `Location`, and every
other response with a status code other than 200 (even other redirect codes
and other 2xx codes), fail the job with `HTTP <code>` as its error; a 200
proceeds to the download branch. -/
theorem redirect_handling (code : Nat) (loc : Option String) (url : String) :
    ((code = 301 ∨ code = 302) →
        handleResponse code (some url) = .redirect url)
    ∧ ((code = 301 ∨ code = 302) →
        handleResponse code none = .failWith ("HTTP " ++ toString code))
    ∧ (¬(code = 301 ∨ code = 302) → code ≠ 200 →
        handleResponse code loc = .failWith ("HTTP " ++ toString code))
    ∧ (code = 200 → handleResponse code loc = .proceed) := by
  refine ⟨?_, ?_, ?_, ?_⟩
  · intro h
    simp [handleResponse, h]
  · intro h
    have h200 : code ≠ 200 := by
      rcases h with h | h <;> omega
    simp [handleResponse, h, h200]
  · intro h h200
    simp [handleResponse, h, h200]
  · intro h
    have : ¬(code = 301 ∨ code = 302) := by omega
    simp [handleResponse, this, h]

/-- Witness for `redirect_handling` at concrete responses. -/
theorem redirect_handling_witness :
    handleResponse 302 (some "https://example.org/y")
        = .redirect "https://example.org/y"
    ∧ handleResponse 404 none = .failWith "HTTP 404"
    ∧ handleResponse 200 none = .proceed :=
  ⟨(redirect_handling 302 none "https://example.org/y").1 (Or.inr rfl),
   (redirect_handling 404 none "u").2.2.1 (by decide) (by decide),
   (redirect_handling 200 none "u").2.2.2 rfl⟩

/-! ### Download manager: direct-file destination filename (C5) -/

/-- Append `.mbtiles` when the name does not already end with it
(part_000 lines 213-221). -/
def ensureMbtilesExt (s : String) : String :=
  if jsEndsWith s ".mbtiles" then s else s ++ ".mbtiles"

/-- Destination filename of the direct (non-archive) branch (part_000 lines
209-222): a non-blank caller-supplied chart name takes precedence (trimmed,
extension enforced); otherwise `path.basename(url).split('?')[0]` with the
extension enforced. -/
def directFileName (chartName : Option String) (url : String) : String :=
  let fromUrl := ensureMbtilesExt ((jsSplit '?' (pathBasename url)).headD "")
  match chartName with
  | some n => if jsTrim n = "" then fromUrl else ensureMbtilesExt (jsTrim n)
  | none => fromUrl

/-- Observable job fields after the direct-file branch succeeds. -/
structure DirectOutcome where
  targetFiles : List String
  extractedFiles : List String
  progress : Nat
  deriving DecidableEq, Repr

/-- The direct-file branch on success (part_000 lines 224-239): the filename
is registered in `targetFiles` when the write stream opens; on finish
`path.basename(targetPath)` is appended to `extractedFiles` and progress is
set to 100. -/
def directDownloadSuccess (chartName : Option String) (url targetDir : String) :
    DirectOutcome :=
  let fileName := directFileName chartName url
  { targetFiles := [fileName]
    extractedFiles := [pathBasename (joinPath targetDir fileName)]
    progress := 100 }

theorem jsEndsWith_ensureMbtilesExt (s : String) :
    jsEndsWith (ensureMbtilesExt s) ".mbtiles" = true := by
  unfold ensureMbtilesExt
  split
  · assumption
  · show (".mbtiles".data).isSuffixOf (s ++ ".mbtiles").data = true
    rw [String.data_append, List.isSuffixOf_iff_suffix]
    exact List.suffix_append s.data _

/-- C5: the destination filename of a direct download is the trimmed
caller-supplied name when one is given (non-blank), else the URL basename
with the query string stripped; the `.mbtiles` extension is enforced in
either case; the spec's example job for `https://host/chart.mbtiles` with no
explicit name ends with `targetFiles = extractedFiles = ["chart.mbtiles"]`
and progress 100, for every target directory. -/
theorem direct_filename (n url targetDir : String) :
    (jsTrim n ≠ "" →
        directFileName (some n) url = ensureMbtilesExt (jsTrim n))
    ∧ directFileName none url
        = ensureMbtilesExt ((jsSplit '?' (pathBasename url)).headD "")
    ∧ jsEndsWith (directFileName (some n) url) ".mbtiles" = true
    ∧ jsEndsWith (directFileName none url) ".mbtiles" = true
    ∧ directDownloadSuccess none "https://host/chart.mbtiles" targetDir
        = { targetFiles := ["chart.mbtiles"]
            extractedFiles := ["chart.mbtiles"]
            progress := 100 } := by
  refine ⟨?_, rfl, ?_, jsEndsWith_ensureMbtilesExt _, ?_⟩
  · intro h
    simp [directFileName, h]
  · unfold directFileName
    dsimp only
    split <;> exact jsEndsWith_ensureMbtilesExt _
  · unfold directDownloadSuccess
    dsimp only
    have hbase : pathBasename
        (joinPath targetDir (directFileName none "https://host/chart.mbtiles"))
        = "chart.mbtiles" := by
      rw [pathBasename_joinPath]
      rfl
    rw [hbase]
    rfl

/-- Witness for `direct_filename` at a concrete job. -/
theorem direct_filename_witness :
    directFileName (some " Oslo Harbour ") "https://host/x.zip"
        = "Oslo Harbour.mbtiles"
    ∧ directDownloadSuccess none "https://host/chart.mbtiles" "/data/charts"
        = { targetFiles := ["chart.mbtiles"]
            extractedFiles := ["chart.mbtiles"]
            progress := 100 } :=
  ⟨(direct_filename " Oslo Harbour " "https://host/x.zip" "/data/charts").1
      (by decide),
   (direct_filename "" "https://host/chart.mbtiles" "/data/charts").2.2.2.2⟩

/-! ### Download manager: archive extraction (C6) -/

inductive EntryType where
  | file
  | directory
  deriving DecidableEq, Repr

/-- An entry of the streamed zip archive as seen by the `entry` handler. -/
structure ZipEntry where
  path : String
  type : EntryType
  deriving DecidableEq, Repr

/-- Does the `entry` handler extract this entry (part_000 line 152)? -/
def entryMatches (e : ZipEntry) : Bool :=
  e.type == .file && jsEndsWith e.path ".mbtiles"

/-- File accounting of one archive run, assuming every destination write
succeeds: names registered at stream-open (`targetFiles`), names confirmed
at stream-close (`extractedFiles`), and the write-stream paths opened on
disk (`openedPaths`). -/
structure ZipRun where
  targetFiles : List String
  extractedFiles : List String
  openedPaths : List String
  deriving DecidableEq, Repr

/-- The `entry` handler (part_000 lines 148-183): a matching regular file
opens a write stream at `path.join(targetDir, path.basename(entry.path))`
and registers its basename; every other entry is autodrained, touching
nothing. -/
def processEntry (targetDir : String) (st : ZipRun) (e : ZipEntry) : ZipRun :=
  if entryMatches e then
    { targetFiles := st.targetFiles ++ [pathBasename e.path]
      extractedFiles := st.extractedFiles ++ [pathBasename e.path]
      openedPaths := st.openedPaths ++ [joinPath targetDir (pathBasename e.path)] }
  else st

/-- Terminal job observation. -/
inductive JobEnd where
  | completed (progress : Nat)
  | failed (error : String)
  deriving DecidableEq, Repr

/-- The archive branch of `downloadAndExtract` (part_000 lines 140-204): all
entries are processed, then on archive finish the job is rejected with the
no-matching-files error when zero files were extracted, and completes with
progress 100 otherwise. -/
def runArchive (targetDir : String) (entries : List ZipEntry) :
    ZipRun × JobEnd :=
  let st := entries.foldl (processEntry targetDir) ⟨[], [], []⟩
  if st.extractedFiles.length = 0 then
    (st, .failed "No .mbtiles files found in archive")
  else (st, .completed 100)

theorem foldl_processEntry_no_match (targetDir : String)
    (entries : List ZipEntry) (st : ZipRun)
    (h : ∀ e ∈ entries, entryMatches e = false) :
    entries.foldl (processEntry targetDir) st = st := by
  induction entries generalizing st with
  | nil => rfl
  | cons e rest ih =>
    have he : entryMatches e = false := h e (List.mem_cons_self e rest)
    show List.foldl (processEntry targetDir) (processEntry targetDir st e) rest = st
    rw [show processEntry targetDir st e = st by simp [processEntry, he]]
    exact ih st (fun e' he' => h e' (List.mem_cons_of_mem e he'))

/-- C6: an archive in which no entry is a regular file named `*.mbtiles`
fails the job with the no-matching-files error (`"No .mbtiles files found in
archive"`), with zero extracted files; the non-matching entries are drained —
no name is registered and no write stream is ever opened on disk. -/
theorem archive_no_match (targetDir : String) (entries : List ZipEntry)
    (h : ∀ e ∈ entries, entryMatches e = false) :
    runArchive targetDir entries
      = (⟨[], [], []⟩, .failed "No .mbtiles files found in archive") := by
  unfold runArchive
  rw [foldl_processEntry_no_match targetDir entries ⟨[], [], []⟩ h]
  rfl

/-- Witness for `archive_no_match`: an archive holding a text file and a
directory whose name ends in `.mbtiles`. -/
theorem archive_no_match_witness :
    runArchive "/data/charts"
        [⟨"readme.txt", .file⟩, ⟨"nested.mbtiles", .directory⟩]
      = (⟨[], [], []⟩, .failed "No .mbtiles files found in archive") :=
  archive_no_match "/data/charts"
    [⟨"readme.txt", .file⟩, ⟨"nested.mbtiles", .directory⟩]
    (by decide)

/-! ### Download manager: job cancellation (C10) -/

/-- Job lifecycle status. -/
inductive JStatus where
  | queued
  | downloading
  | extracting
  | completed
  | failed
  deriving DecidableEq, Repr

/-- The fields of a download job that `cancelJob` reads or writes. -/
structure DMJob where
  status : JStatus
  error : Option String
  targetFiles : List String
  targetDir : String
  deriving DecidableEq, Repr

/-- Marking of a cancelled job (part_000 lines 278-280). -/
def cancelMark (j : DMJob) : DMJob :=
  { j with status := .failed, error := some "Cancelled by user" }

/-- `cancelJob` (part_000 lines 267-300) acting on the job table and a
snapshot of the files on disk: unknown id or a completed job is refused and
nothing changes; otherwise the job is marked failed with error
`Cancelled by user` and `path.join(targetDir, name)` is unlinked for every
name in `targetFiles` (ENOENT ignored). -/
def cancelJob (jobs : List (String × DMJob)) (fsFiles : List String)
    (jobId : String) : Bool × List (String × DMJob) × List String :=
  match (jobs.find? (fun p => p.1 = jobId)).map Prod.snd with
  | none => (false, jobs, fsFiles)
  | some job =>
    if job.status = .completed then (false, jobs, fsFiles)
    else
      let cancelled : DMJob := cancelMark job
      let deletedPaths := job.targetFiles.map (joinPath job.targetDir)
      (true,
       jobs.map (fun p => if p.1 = jobId then (p.1, cancelled) else p),
       fsFiles.filter (fun f => ¬ f ∈ deletedPaths))

/-- C10: `cancelJob` refuses — leaving the job table and the filesystem
unchanged — exactly when the id is unknown or the job is completed; for a
job in any other status, including one already failed, it succeeds, marks
the job failed with error `Cancelled by user`, and removes
`path.join(targetDir, name)` from disk for every name in `targetFiles`. -/
theorem cancelJob_spec (jobs : List (String × DMJob)) (fsFiles : List String)
    (jobId : String) :
    ((jobs.find? (fun p => p.1 = jobId)) = none →
        cancelJob jobs fsFiles jobId = (false, jobs, fsFiles))
    ∧ (∀ p, (jobs.find? (fun p => p.1 = jobId)) = some p →
        p.2.status = .completed →
        cancelJob jobs fsFiles jobId = (false, jobs, fsFiles))
    ∧ (∀ p, (jobs.find? (fun p => p.1 = jobId)) = some p →
        p.2.status ≠ .completed →
        (cancelJob jobs fsFiles jobId).1 = true
        ∧ (cancelJob jobs fsFiles jobId).2.1
            = jobs.map (fun q =>
                if q.1 = jobId then (q.1, cancelMark p.2) else q)
        ∧ (∀ name ∈ p.2.targetFiles,
            joinPath p.2.targetDir name ∉ (cancelJob jobs fsFiles jobId).2.2)
        ∧ (∀ f ∈ fsFiles,
            f ∉ p.2.targetFiles.map (joinPath p.2.targetDir) →
            f ∈ (cancelJob jobs fsFiles jobId).2.2)) := by
  refine ⟨?_, ?_, ?_⟩
  · intro h
    simp [cancelJob, h]
  · intro p hp hc
    simp [cancelJob, hp, hc]
  · intro p hp hc
    have hpj : (jobs.find? (fun p => p.1 = jobId)).map Prod.snd = some p.2 := by
      simp [hp]
    refine ⟨?_, ?_, ?_, ?_⟩
    · simp [cancelJob, hpj, hc]
    · simp only [cancelJob, hpj]
      rw [if_neg hc]
    · intro name hname
      simp only [cancelJob, hpj]
      rw [if_neg hc]
      simp only [List.mem_filter, decide_not]
      rintro ⟨-, habs⟩
      have : joinPath p.2.targetDir name
          ∈ p.2.targetFiles.map (joinPath p.2.targetDir) :=
        List.mem_map_of_mem _ hname
      simp [this] at habs
    · intro f hf hnot
      simp only [cancelJob, hpj]
      rw [if_neg hc]
      simp only [List.mem_filter, decide_not]
      exact ⟨hf, by simpa using hnot⟩

/-- Witness for `cancelJob_spec`: cancelling an already-failed job succeeds
and deletes its target file; cancelling a completed job is refused. -/
theorem cancelJob_spec_witness :
    (cancelJob [("dl_1", ⟨.failed, some "HTTP 404", ["a.mbtiles"], "/charts"⟩)]
        ["/charts/a.mbtiles", "/charts/b.mbtiles"] "dl_1").1 = true
    ∧ "/charts/a.mbtiles"
        ∉ (cancelJob
            [("dl_1", ⟨.failed, some "HTTP 404", ["a.mbtiles"], "/charts"⟩)]
            ["/charts/a.mbtiles", "/charts/b.mbtiles"] "dl_1").2.2
    ∧ cancelJob [("dl_2", ⟨.completed, none, ["b.mbtiles"], "/charts"⟩)]
        ["/charts/b.mbtiles"] "dl_2"
      = (false, [("dl_2", ⟨.completed, none, ["b.mbtiles"], "/charts"⟩)],
         ["/charts/b.mbtiles"]) :=
  ⟨((cancelJob_spec
      [("dl_1", ⟨.failed, some "HTTP 404", ["a.mbtiles"], "/charts"⟩)]
      ["/charts/a.mbtiles", "/charts/b.mbtiles"] "dl_1").2.2
      (("dl_1", ⟨.failed, some "HTTP 404", ["a.mbtiles"], "/charts"⟩))
      rfl (by decide)).1,
   ((cancelJob_spec
      [("dl_1", ⟨.failed, some "HTTP 404", ["a.mbtiles"], "/charts"⟩)]
      ["/charts/a.mbtiles", "/charts/b.mbtiles"] "dl_1").2.2
      (("dl_1", ⟨.failed, some "HTTP 404", ["a.mbtiles"], "/charts"⟩))
      rfl (by decide)).2.2.1 "a.mbtiles" (by decide),
   ((cancelJob_spec [("dl_2", ⟨.completed, none, ["b.mbtiles"], "/charts"⟩)]
      ["/charts/b.mbtiles"] "dl_2").2.1
      (("dl_2", ⟨.completed, none, ["b.mbtiles"], "/charts"⟩)) rfl rfl)⟩

/-! ### Download manager: targetFiles / extractedFiles accounting (C7) -/

/-- One destination write stream in flight: the name that was pushed to
`targetFiles` when the stream opened, and the name that will be pushed to
`extractedFiles` when it closes. -/
structure PendingWrite where
  opened : String
  onClose : String

/-- The file-accounting part of a job's state. -/
structure FileState where
  targetFiles : List String
  extractedFiles : List String
  pending : List PendingWrite

/-- Events that touch `targetFiles`/`extractedFiles` in `downloadAndExtract`:
opening an archive-entry stream (part_000 lines 152-179) registers
`path.basename(entry.path)` and will confirm the same expression on close
(line 168); opening the direct-path stream (lines 226-238) registers the
computed `fileName` (line 227) and will confirm
`path.basename(path.join(targetDir, fileName))` (line 236); a stream close
confirms its pending name. Nothing ever removes a registered name
(`cancelJob` deletes files on disk but leaves both arrays untouched). -/
inductive FileStep : FileState → FileState → Prop
  | openEntry (st : FileState) (entryPath : String) :
      FileStep st
        { targetFiles := st.targetFiles ++ [pathBasename entryPath]
          extractedFiles := st.extractedFiles
          pending := st.pending
            ++ [⟨pathBasename entryPath, pathBasename entryPath⟩] }
  | openDirect (st : FileState) (fileName targetDir : String) :
      FileStep st
        { targetFiles := st.targetFiles ++ [fileName]
          extractedFiles := st.extractedFiles
          pending := st.pending
            ++ [⟨fileName, pathBasename (joinPath targetDir fileName)⟩] }
  | closeWrite (st : FileState) (l₁ l₂ : List PendingWrite) (w : PendingWrite)
      (h : st.pending = l₁ ++ w :: l₂) :
      FileStep st
        { targetFiles := st.targetFiles
          extractedFiles := st.extractedFiles ++ [w.onClose]
          pending := l₁ ++ l₂ }

/-- File-accounting states reachable from a fresh job. -/
inductive FileReachable : FileState → Prop
  | init : FileReachable ⟨[], [], []⟩
  | step {s s' : FileState} :
      FileReachable s → FileStep s s' → FileReachable s'

theorem pathBasename_of_no_sep (s : String) (h : '/' ∉ s.data) :
    pathBasename s = s := by
  show (⟨lastSeg s.data []⟩ : String) = s
  rw [lastSeg_of_no_sep s.data [] h]
  simp

/-- The inductive invariant of the file accounting. -/
def FileInv (st : FileState) : Prop :=
  (∀ e ∈ st.extractedFiles, ∃ t ∈ st.targetFiles, e = pathBasename t)
  ∧ (∀ w ∈ st.pending,
      w.opened ∈ st.targetFiles ∧ w.onClose = pathBasename w.opened)

theorem fileStep_targetFiles_mono {s s' : FileState} (h : FileStep s s') :
    s.targetFiles <+: s'.targetFiles := by
  cases h with
  | openEntry entryPath => exact ⟨[pathBasename entryPath], rfl⟩
  | openDirect fileName targetDir => exact ⟨[fileName], rfl⟩
  | closeWrite l₁ l₂ w hp => exact List.prefix_rfl

theorem fileStep_inv {s s' : FileState} (hinv : FileInv s) (h : FileStep s s') :
    FileInv s' := by
  obtain ⟨hext, hpend⟩ := hinv
  cases h with
  | openEntry entryPath =>
    refine ⟨?_, ?_⟩
    · intro e he
      obtain ⟨t, ht, hts⟩ := hext e he
      exact ⟨t, List.mem_append_left _ ht, hts⟩
    · intro w hw
      rcases List.mem_append.1 hw with hw | hw
      · obtain ⟨h1, h2⟩ := hpend w hw
        exact ⟨List.mem_append_left _ h1, h2⟩
      · have hw' : w = ⟨pathBasename entryPath, pathBasename entryPath⟩ := by
          simpa using hw
        subst hw'
        refine ⟨List.mem_append_right _ (by simp), ?_⟩
        exact (pathBasename_idem entryPath).symm
  | openDirect fileName targetDir =>
    refine ⟨?_, ?_⟩
    · intro e he
      obtain ⟨t, ht, hts⟩ := hext e he
      exact ⟨t, List.mem_append_left _ ht, hts⟩
    · intro w hw
      rcases List.mem_append.1 hw with hw | hw
      · obtain ⟨h1, h2⟩ := hpend w hw
        exact ⟨List.mem_append_left _ h1, h2⟩
      · have hw' : w = ⟨fileName, pathBasename (joinPath targetDir fileName)⟩ := by
          simpa using hw
        subst hw'
        refine ⟨List.mem_append_right _ (by simp), ?_⟩
        exact pathBasename_joinPath targetDir fileName
  | closeWrite l₁ l₂ w hp =>
    refine ⟨?_, ?_⟩
    · intro e he
      rcases List.mem_append.1 he with he | he
      · exact hext e he
      · have he' : e = w.onClose := by simpa using he
        subst he'
        have hwmem : w ∈ s.pending := by
          rw [hp]
          exact List.mem_append_right _ (List.mem_cons_self w l₂)
        obtain ⟨h1, h2⟩ := hpend w hwmem
        exact ⟨w.opened, h1, h2⟩
    · intro w' hw'
      have : w' ∈ s.pending := by
        rw [hp]
        rcases List.mem_append.1 hw' with h | h
        · exact List.mem_append_left _ h
        · exact List.mem_append_right _ (List.mem_cons_of_mem w h)
      exact hpend w' this

/-- C7 counterexample: a direct-file job whose caller-supplied chart name
contains a path separator (`sub/chart`) reaches — after its single write
stream opens and closes — a state whose `extractedFiles` holds
`chart.mbtiles` while `targetFiles` holds only `sub/chart.mbtiles`: the set
of names in `targetFiles` is not a superset of those in `extractedFiles`. -/
theorem targetFiles_superset_counterexample :
    FileReachable ⟨["sub/chart.mbtiles"], ["chart.mbtiles"], []⟩
    ∧ "chart.mbtiles" ∈ (["chart.mbtiles"] : List String)
    ∧ "chart.mbtiles" ∉ (["sub/chart.mbtiles"] : List String) := by
  refine ⟨?_, by decide, by decide⟩
  have h1 : FileStep ⟨[], [], []⟩
      ⟨["sub/chart.mbtiles"], [],
        [⟨"sub/chart.mbtiles", pathBasename (joinPath "charts" "sub/chart.mbtiles")⟩]⟩ :=
    FileStep.openDirect ⟨[], [], []⟩ "sub/chart.mbtiles" "charts"
  have h2 : FileStep
      ⟨["sub/chart.mbtiles"], [],
        [⟨"sub/chart.mbtiles", pathBasename (joinPath "charts" "sub/chart.mbtiles")⟩]⟩
      ⟨["sub/chart.mbtiles"], ["chart.mbtiles"], []⟩ := by
    have := FileStep.closeWrite
      (⟨["sub/chart.mbtiles"], [],
        [⟨"sub/chart.mbtiles", pathBasename (joinPath "charts" "sub/chart.mbtiles")⟩]⟩ : FileState)
      [] []
      ⟨"sub/chart.mbtiles", pathBasename (joinPath "charts" "sub/chart.mbtiles")⟩
      rfl
    exact this
  exact FileReachable.step (FileReachable.step FileReachable.init h1) h2

/-- C7 amended: in every reachable file-accounting state, every
`extractedFiles` entry is the basename of some `targetFiles` entry (so the
superset property holds whenever the registered name contains no path
separator — always the case for archive entries, whose registered name is
already a basename, and for direct downloads with separator-free names); and
no step ever removes a `targetFiles` entry — each step extends the list. -/
theorem targetFiles_accounting (st : FileState) (h : FileReachable st) :
    (∀ e ∈ st.extractedFiles, ∃ t ∈ st.targetFiles,
        e = pathBasename t ∧ ('/' ∉ t.data → e = t))
    ∧ (∀ s s' : FileState, FileStep s s' → s.targetFiles <+: s'.targetFiles) := by
  have hinv : FileInv st := by
    induction h with
    | init => exact ⟨by simp, by simp⟩
    | step hr hs ih => exact fileStep_inv ih hs
  refine ⟨?_, fun s s' hs => fileStep_targetFiles_mono hs⟩
  intro e he
  obtain ⟨t, ht, hts⟩ := hinv.1 e he
  refine ⟨t, ht, hts, ?_⟩
  intro hsep
  rw [hts, pathBasename_of_no_sep t hsep]

/-- Witness for `targetFiles_accounting` at a concrete reachable state (one
archive entry opened and closed) and the concrete extracted name. -/
theorem targetFiles_accounting_witness :
    ∃ t ∈ (FileState.mk ["a.mbtiles"] ["a.mbtiles"] []).targetFiles,
      "a.mbtiles" = pathBasename t ∧ ('/' ∉ t.data → "a.mbtiles" = t) :=
  (targetFiles_accounting ⟨["a.mbtiles"], ["a.mbtiles"], []⟩
    (FileReachable.step
      (FileReachable.step FileReachable.init
        (FileStep.openEntry ⟨[], [], []⟩ "a.mbtiles"))
      (FileStep.closeWrite
        (⟨["a.mbtiles"], [], [⟨"a.mbtiles", "a.mbtiles"⟩]⟩ : FileState)
        [] [] ⟨"a.mbtiles", "a.mbtiles"⟩ rfl))).1
    "a.mbtiles" (by simp)

/-! ### Download manager: bounded-concurrency scheduler (C3)

`processQueue` (part_000 lines 56-73) checks the counter and admits the
first queued job *synchronously* (no `await` between the bound check at line
57 and the increment at line 67), so check-and-admit is one atomic event of
the single-threaded event loop; the awaited job body then runs across many
events, and line 69's decrement plus line 72's recursive call form the
completion event. `cancelJob` flips a status without touching
`activeDownloads`. -/

/-- `this.maxConcurrent = 3` (part_000 line 13). -/
def maxConcurrent : Nat := 3

/-- A job as the scheduler sees it: status, plus whether a `processJob`
invocation currently owns it (between the increment and decrement of
`activeDownloads`). -/
structure SJob where
  id : Nat
  status : JStatus
  inFlight : Bool

/-- Scheduler state: job table in insertion order (`Map` iteration order)
and the `activeDownloads` counter. -/
structure SchedState where
  jobs : List SJob
  active : Nat

/-- Admission of `processQueue`: mark the first queued job (the `find` over
insertion order, line 62) as downloading and owned. -/
def setFirstQueued : List SJob → List SJob
  | [] => []
  | j :: rest =>
    if j.status = .queued then
      { j with status := .downloading, inFlight := true } :: rest
    else j :: setFirstQueued rest

/-- Is some job queued? -/
def hasQueued (l : List SJob) : Bool :=
  l.any (fun j => j.status = .queued)

/-- The synchronous prefix of one `processQueue` invocation (lines 56-67):
do nothing at the concurrency bound or with no queued job; otherwise admit
the first queued job and increment `activeDownloads`. -/
def processQueue (s : SchedState) : SchedState :=
  if s.active ≥ maxConcurrent then s
  else if hasQueued s.jobs then
    { jobs := setFirstQueued s.jobs, active := s.active + 1 }
  else s

/-- `createJob` (lines 16-40): append a job in `queued` state, then run a
scheduling pass. -/
def submitJob (s : SchedState) (id : Nat) : SchedState :=
  processQueue { jobs := s.jobs ++ [⟨id, .queued, false⟩], active := s.active }

/-- Scheduler-relevant events: job submission; the zip branch moving an
owned job to `extracting` (line 142); completion of an owned job's
`processJob` (`completed` or `failed`, lines 83-93) followed by the
decrement and the recursive scheduling pass (lines 69-72); and `cancelJob`
forcing a non-completed job to `failed` without touching the counter (lines
277-280). -/
inductive SchedStep : SchedState → SchedState → Prop
  | submit (s : SchedState) (id : Nat) : SchedStep s (submitJob s id)
  | startExtract (l₁ l₂ : List SJob) (j : SJob) (a : Nat)
      (h : j.inFlight = true) :
      SchedStep ⟨l₁ ++ j :: l₂, a⟩
        ⟨l₁ ++ { j with status := .extracting } :: l₂, a⟩
  | finish (l₁ l₂ : List SJob) (j : SJob) (a : Nat) (ok : Bool)
      (h : j.inFlight = true) :
      SchedStep ⟨l₁ ++ j :: l₂, a⟩
        (processQueue ⟨l₁ ++ { j with
            status := if ok then .completed else .failed,
            inFlight := false } :: l₂, a - 1⟩)
  | cancel (l₁ l₂ : List SJob) (j : SJob) (a : Nat)
      (h : j.status ≠ .completed) :
      SchedStep ⟨l₁ ++ j :: l₂, a⟩
        ⟨l₁ ++ { j with status := .failed } :: l₂, a⟩

/-- Scheduler states reachable from the fresh manager (empty table, zero
active downloads). -/
inductive SchedReachable : SchedState → Prop
  | init : SchedReachable ⟨[], 0⟩
  | step {s s' : SchedState} :
      SchedReachable s → SchedStep s s' → SchedReachable s'

/-- Number of jobs owned by a running `processJob`. -/
def inFlightCount (l : List SJob) : Nat :=
  (l.filter (fun j => j.inFlight)).length

/-- Is the job in `downloading` or `extracting` status? -/
def isRunning (j : SJob) : Bool :=
  match j.status with
  | .downloading => true
  | .extracting => true
  | _ => false

/-- Number of jobs simultaneously in `downloading`/`extracting` status. -/
def runningCount (l : List SJob) : Nat :=
  (l.filter isRunning).length

/-- The inductive invariant of the scheduler. -/
def SchedInv (s : SchedState) : Prop :=
  s.active ≤ maxConcurrent
  ∧ inFlightCount s.jobs = s.active
  ∧ (∀ j ∈ s.jobs, isRunning j = true → j.inFlight = true)
  ∧ (∀ j ∈ s.jobs, j.status = .queued → j.inFlight = false)

theorem inFlightCount_append (l₁ l₂ : List SJob) :
    inFlightCount (l₁ ++ l₂) = inFlightCount l₁ + inFlightCount l₂ := by
  simp [inFlightCount, List.filter_append]

theorem inFlightCount_cons (j : SJob) (l : List SJob) :
    inFlightCount (j :: l)
      = (if j.inFlight then 1 else 0) + inFlightCount l := by
  simp only [inFlightCount, List.filter_cons]
  split <;> simp [Nat.add_comm]

theorem setFirstQueued_count (l : List SJob)
    (hq : hasQueued l = true)
    (hqf : ∀ j ∈ l, j.status = .queued → j.inFlight = false) :
    inFlightCount (setFirstQueued l) = inFlightCount l + 1 := by
  induction l with
  | nil => simp [hasQueued] at hq
  | cons j rest ih =>
    by_cases hj : j.status = .queued
    · have hjf : j.inFlight = false := hqf j (List.mem_cons_self j rest) hj
      simp only [setFirstQueued, if_pos hj]
      rw [inFlightCount_cons, inFlightCount_cons, hjf]
      simp [Nat.add_comm, Nat.add_left_comm]
    · have hq' : hasQueued rest = true := by
        simp only [hasQueued, List.any_cons] at hq ⊢
        rcases Bool.or_eq_true_iff.1 hq with h | h
        · exact absurd (of_decide_eq_true h) hj
        · exact h
      simp only [setFirstQueued, if_neg hj]
      rw [inFlightCount_cons, inFlightCount_cons,
        ih hq' (fun k hk hks => hqf k (List.mem_cons_of_mem j hk) hks)]
      omega

theorem setFirstQueued_mem (l : List SJob) (j' : SJob)
    (h : j' ∈ setFirstQueued l) :
    j' ∈ l ∨ ∃ j ∈ l, j.status = .queued
      ∧ j' = { j with status := .downloading, inFlight := true } := by
  induction l with
  | nil => simp [setFirstQueued] at h
  | cons j rest ih =>
    by_cases hj : j.status = .queued
    · simp only [setFirstQueued, if_pos hj] at h
      rcases List.mem_cons.1 h with h | h
      · exact Or.inr ⟨j, List.mem_cons_self j rest, hj, h⟩
      · exact Or.inl (List.mem_cons_of_mem j h)
    · simp only [setFirstQueued, if_neg hj] at h
      rcases List.mem_cons.1 h with h | h
      · exact Or.inl (h ▸ List.mem_cons_self j rest)
      · rcases ih h with h | ⟨k, hk, hks, hkj⟩
        · exact Or.inl (List.mem_cons_of_mem j h)
        · exact Or.inr ⟨k, List.mem_cons_of_mem j hk, hks, hkj⟩

theorem processQueue_inv (s : SchedState) (h : SchedInv s) :
    SchedInv (processQueue s) := by
  obtain ⟨hb, hcnt, hrun, hqf⟩ := h
  unfold processQueue
  split
  · exact ⟨hb, hcnt, hrun, hqf⟩
  · rename_i hlt
    split
    · rename_i hq
      refine ⟨?_, ?_, ?_, ?_⟩
      · show s.active + 1 ≤ maxConcurrent
        omega
      · show inFlightCount (setFirstQueued s.jobs) = s.active + 1
        rw [setFirstQueued_count s.jobs hq hqf, hcnt]
      · intro j' hj' hr
        rcases setFirstQueued_mem s.jobs j' hj' with hm | ⟨j, hj, -, hjeq⟩
        · exact hrun j' hm hr
        · rw [hjeq]
      · intro j' hj' hqs
        rcases setFirstQueued_mem s.jobs j' hj' with hm | ⟨j, hj, -, hjeq⟩
        · exact hqf j' hm hqs
        · rw [hjeq] at hqs
          exact absurd hqs (by simp)
    · exact ⟨hb, hcnt, hrun, hqf⟩

theorem inFlightCount_mid (l₁ l₂ : List SJob) (j : SJob) :
    inFlightCount (l₁ ++ j :: l₂)
      = inFlightCount l₁ + ((if j.inFlight then 1 else 0) + inFlightCount l₂) := by
  rw [inFlightCount_append, inFlightCount_cons]

theorem runningCount_cons (j : SJob) (l : List SJob) :
    runningCount (j :: l)
      = (if isRunning j = true then 1 else 0) + runningCount l := by
  simp only [runningCount, List.filter_cons]
  split <;> simp_all [Nat.add_comm]

theorem runningCount_le (l : List SJob)
    (h : ∀ j ∈ l, isRunning j = true → j.inFlight = true) :
    runningCount l ≤ inFlightCount l := by
  induction l with
  | nil => simp [runningCount, inFlightCount]
  | cons j rest ih =>
    rw [runningCount_cons, inFlightCount_cons]
    have ih' := ih (fun k hk hr => h k (List.mem_cons_of_mem j hk) hr)
    by_cases hr : isRunning j = true
    · rw [if_pos hr, if_pos (h j (List.mem_cons_self j rest) hr)]
      omega
    · rw [if_neg hr]
      split <;> omega

theorem schedStep_inv {s s' : SchedState} (h : SchedInv s)
    (hs : SchedStep s s') : SchedInv s' := by
  obtain ⟨hb, hcnt, hrun, hqf⟩ := h
  cases hs with
  | submit =>
    rename_i jid
    apply processQueue_inv
    refine ⟨hb, ?_, ?_, ?_⟩
    · show inFlightCount (s.jobs ++ [(⟨jid, .queued, false⟩ : SJob)]) = s.active
      rw [inFlightCount_append, ← hcnt]
      simp [inFlightCount]
    · intro j hj hr
      rcases List.mem_append.1 hj with hj | hj
      · exact hrun j hj hr
      · have hje : j = (⟨jid, .queued, false⟩ : SJob) := by simpa using hj
        rw [hje] at hr
        simp [isRunning] at hr
    · intro j hj hq
      rcases List.mem_append.1 hj with hj | hj
      · exact hqf j hj hq
      · have hje : j = (⟨jid, .queued, false⟩ : SJob) := by simpa using hj
        rw [hje]
  | startExtract l₁ l₂ j a hfl =>
    have hb' : a ≤ maxConcurrent := hb
    have hcnt' : inFlightCount (l₁ ++ j :: l₂) = a := hcnt
    refine ⟨hb', ?_, ?_, ?_⟩
    · show inFlightCount (l₁ ++ { j with status := JStatus.extracting } :: l₂) = a
      rw [inFlightCount_mid] at hcnt' ⊢
      exact hcnt'
    · intro k hk hr
      rcases List.mem_append.1 hk with hk | hk
      · exact hrun k (List.mem_append_left _ hk) hr
      · rcases List.mem_cons.1 hk with hk | hk
        · rw [hk]
          exact hfl
        · exact hrun k (List.mem_append_right _ (List.mem_cons_of_mem j hk)) hr
    · intro k hk hq
      rcases List.mem_append.1 hk with hk | hk
      · exact hqf k (List.mem_append_left _ hk) hq
      · rcases List.mem_cons.1 hk with hk | hk
        · rw [hk] at hq
          exact absurd hq (by simp)
        · exact hqf k (List.mem_append_right _ (List.mem_cons_of_mem j hk)) hq
  | finish l₁ l₂ j a ok hfl =>
    apply processQueue_inv
    have hb' : a ≤ maxConcurrent := hb
    have hcnt' : inFlightCount (l₁ ++ j :: l₂) = a := hcnt
    rw [inFlightCount_mid, if_pos hfl] at hcnt'
    refine ⟨?_, ?_, ?_, ?_⟩
    · show a - 1 ≤ maxConcurrent
      omega
    · show inFlightCount (l₁ ++ { j with
          status := if ok then JStatus.completed else JStatus.failed,
          inFlight := false } :: l₂) = a - 1
      rw [inFlightCount_mid]
      simp only [if_neg (by simp : ¬(false = true))]
      omega
    · intro k hk hr
      rcases List.mem_append.1 hk with hk | hk
      · exact hrun k (List.mem_append_left _ hk) hr
      · rcases List.mem_cons.1 hk with hk | hk
        · rw [hk] at hr
          cases ok <;> simp [isRunning] at hr
        · exact hrun k (List.mem_append_right _ (List.mem_cons_of_mem j hk)) hr
    · intro k hk hq
      rcases List.mem_append.1 hk with hk | hk
      · exact hqf k (List.mem_append_left _ hk) hq
      · rcases List.mem_cons.1 hk with hk | hk
        · rw [hk] at hq
          cases ok <;> simp at hq
        · exact hqf k (List.mem_append_right _ (List.mem_cons_of_mem j hk)) hq
  | cancel l₁ l₂ j a hnc =>
    have hb' : a ≤ maxConcurrent := hb
    have hcnt' : inFlightCount (l₁ ++ j :: l₂) = a := hcnt
    refine ⟨hb', ?_, ?_, ?_⟩
    · show inFlightCount (l₁ ++ { j with status := JStatus.failed } :: l₂) = a
      rw [inFlightCount_mid] at hcnt' ⊢
      exact hcnt'
    · intro k hk hr
      rcases List.mem_append.1 hk with hk | hk
      · exact hrun k (List.mem_append_left _ hk) hr
      · rcases List.mem_cons.1 hk with hk | hk
        · rw [hk] at hr
          simp [isRunning] at hr
        · exact hrun k (List.mem_append_right _ (List.mem_cons_of_mem j hk)) hr
    · intro k hk hq
      rcases List.mem_append.1 hk with hk | hk
      · exact hqf k (List.mem_append_left _ hk) hq
      · rcases List.mem_cons.1 hk with hk | hk
        · rw [hk] at hq
          exact absurd hq (by simp)
        · exact hqf k (List.mem_append_right _ (List.mem_cons_of_mem j hk)) hq

theorem schedReachable_inv (s : SchedState) (h : SchedReachable s) :
    SchedInv s := by
  induction h with
  | init =>
    refine ⟨by simp [maxConcurrent], rfl, ?_, ?_⟩ <;> intro j hj <;> simp at hj
  | step hr hs ih => exact schedStep_inv ih hs

theorem hasQueued_mid (l₁ l₂ : List SJob) (j : SJob)
    (hj : j.status = .queued) :
    hasQueued (l₁ ++ j :: l₂) = true := by
  simp [hasQueued, List.any_append, List.any_cons, hj]

theorem setFirstQueued_decomp (l₁ l₂ : List SJob) (j : SJob)
    (hl₁ : ∀ k ∈ l₁, k.status ≠ .queued) (hj : j.status = .queued) :
    setFirstQueued (l₁ ++ j :: l₂)
      = l₁ ++ { j with status := .downloading, inFlight := true } :: l₂ := by
  induction l₁ with
  | nil =>
    simp only [List.nil_append, setFirstQueued, if_pos hj]
  | cons k rest ih =>
    have hk : k.status ≠ .queued := hl₁ k (List.mem_cons_self k rest)
    simp only [List.cons_append, setFirstQueued, if_neg hk]
    exact congrArg (k :: ·) (ih (fun k' hk' => hl₁ k' (List.mem_cons_of_mem k hk')))

/-- C3: in every reachable scheduler state at most `maxConcurrent = 3` jobs
are simultaneously in `downloading`/`extracting` status; a job submitted
while the counter is at the bound is appended in `queued` state with nothing
admitted; and whenever a scheduling pass runs below the bound, the admitted
job is exactly the oldest queued job (first in insertion order), which
becomes `downloading` while every other table entry is untouched. -/
theorem bounded_concurrency (s : SchedState) (h : SchedReachable s) :
    runningCount s.jobs ≤ maxConcurrent
    ∧ (∀ id, s.active = maxConcurrent →
        submitJob s id
          = ⟨s.jobs ++ [⟨id, .queued, false⟩], s.active⟩)
    ∧ (∀ l₁ l₂ (j : SJob), s.jobs = l₁ ++ j :: l₂ →
        (∀ k ∈ l₁, k.status ≠ .queued) → j.status = .queued →
        s.active < maxConcurrent →
        processQueue s
          = ⟨l₁ ++ { j with status := .downloading, inFlight := true } :: l₂,
             s.active + 1⟩) := by
  obtain ⟨hb, hcnt, hrun, hqf⟩ := schedReachable_inv s h
  refine ⟨?_, ?_, ?_⟩
  · calc runningCount s.jobs ≤ inFlightCount s.jobs := runningCount_le s.jobs hrun
    _ = s.active := hcnt
    _ ≤ maxConcurrent := hb
  · intro id hfull
    unfold submitJob processQueue
    rw [if_pos (by simp [hfull])]
  · intro l₁ l₂ j hdec hl₁ hj hlt
    unfold processQueue
    rw [if_neg (by omega), hdec,
      if_pos (hasQueued_mid l₁ l₂ j hj),
      setFirstQueued_decomp l₁ l₂ j hl₁ hj]

/-- Witness for `bounded_concurrency` at the concrete state reached by
submitting four jobs to a fresh manager: three are downloading, the fourth
is queued. -/
theorem bounded_concurrency_witness :
    runningCount [⟨0, .downloading, true⟩, ⟨1, .downloading, true⟩,
        ⟨2, .downloading, true⟩, ⟨3, .queued, false⟩] ≤ maxConcurrent :=
  (bounded_concurrency
    ⟨[⟨0, .downloading, true⟩, ⟨1, .downloading, true⟩,
      ⟨2, .downloading, true⟩, ⟨3, .queued, false⟩], 3⟩
    (SchedReachable.step
      (SchedReachable.step
        (SchedReachable.step
          (SchedReachable.step SchedReachable.init (SchedStep.submit _ 0))
          (SchedStep.submit _ 1))
        (SchedStep.submit _ 2))
      (SchedStep.submit _ 3))).1

end ChartsProvider
